import Mathlib

/-!
Verification of the protein-refinery evolutionary refinement loop.

The definitions below are a shallow embedding of the TypeScript sources:
  * `backend/src/refinery/orchestrator.ts`   (class Orchestrator)
  * `backend/src/refinery/modules/designer.ts`  (class Designer)
  * `backend/src/refinery/modules/validator.ts` (class Validator, heuristic)
  * `backend/src/refinery/modules/validator_real.ts` (class RealValidator)
  * `backend/src/database.ts`                (class Database, sqlite)

JavaScript numbers are modelled as rationals (`ℚ`); where a value can be
`NaN` (the result of a failed `parseFloat`) it is modelled as `Option ℚ`
with `none` standing for a non-finite number.  Calls to `Math.random()`
are modelled as explicit rational parameters in `[0, 1)`.  External
effects (file system, child processes, the SQLite store) are modelled as
explicit oracle inputs describing the observable behaviour of the
environment.
-/

namespace Refinery

/-- The `Protein` record of `orchestrator.ts` (lines 11-16): `id` is optional. -/
structure Protein where
  id : Option String
  sequence : String
  affinity : ℚ
  stability : ℚ
deriving DecidableEq, Repr

/-- Events emitted by the Orchestrator (`this.emit(...)` calls).  Log and
status payload texts are abbreviated; only their kind and order matter to
the verified claims. -/
inductive Event where
  | log (msg : String)
  | status (msg : String)
  | new_candidate (p : Protein) (generation : ℕ) (novelty : String)
  | evolution_leap (p : Protein)
  | pareto_update (frontier : List Protein)
deriving DecidableEq, Repr

/-- `true` exactly on `evolution_leap` events. -/
def isLeapEvent : Event → Bool
  | Event.evolution_leap _ => true
  | _ => false

/-- Number of `evolution_leap` events in an emission trace. -/
def countLeaps (evs : List Event) : ℕ := evs.countP isLeapEvent

/-- The bound used in `Orchestrator.addToPareto` (line 80): `length > 200`. -/
def PARETO_CAP : ℕ := 200

/-- `Orchestrator.addToPareto` (lines 74-82): push the protein, drop the
oldest entry (`Array.prototype.shift`) when the size exceeds 200, then
emit the full current frontier as a `pareto_update` event. -/
def addToPareto (frontier : List Protein) (p : Protein) : List Protein × Event :=
  let f := frontier ++ [p]
  if PARETO_CAP < f.length then (f.tail, Event.pareto_update f.tail)
  else (f, Event.pareto_update f)

/-- Repeated `addToPareto`, keeping only the frontier. -/
def addAll (frontier : List Protein) (ps : List Protein) : List Protein :=
  ps.foldl (fun g p => (addToPareto g p).1) frontier


/-- One step of the generation-best fold (`orchestrator.ts` line 136):
the accumulator is the pair `(generationBest, generationBestScore)`,
initialised to `(null, 100)` (lines 107-108); a candidate replaces the
accumulator when `affinity < generationBestScore && stability < -4.0 &&
affinity != 0`. -/
def selStep (acc : Option Protein × ℚ) (c : Protein) : Option Protein × ℚ :=
  if c.affinity < acc.2 ∧ c.stability < -4 ∧ c.affinity ≠ 0 then (some c, c.affinity)
  else acc

/-- The generation-best selection of `Orchestrator.start` over one
generation of evaluated candidates, in evaluation order. -/
def selectBest (cands : List Protein) : Option Protein :=
  (cands.foldl selStep (none, 100)).1

/-- Modelled from the spec: candidate eligibility for generation-best
("stability gate `stability < -4.0`, excluding a zero-affinity
sentinel"), together with the strict bound `affinity < 100` that the
code imposes through the initial `generationBestScore = 100`. -/
def eligCapped (c : Protein) : Bool :=
  decide (c.stability < -4) && decide (c.affinity ≠ 0) && decide (c.affinity < 100)

/-- One step of first-wins minimisation by affinity. -/
def minStep (acc : Option Protein) (c : Protein) : Option Protein :=
  match acc with
  | none => some c
  | some b => if c.affinity < b.affinity then some c else some b

/-- Modelled from the spec: the candidate with the lowest affinity among
the eligible ones, ties broken by evaluation order (first wins), further
restricted by the code's `affinity < 100` cap. -/
def specBestCapped (cands : List Protein) : Option Protein :=
  (cands.filter eligCapped).foldl minStep none


/-- Oracle describing one candidate of a generation: the sequence the
Designer produced, the uuid slice drawn for its id (line 115), the
Validator's reply `{stability, affinity, pdbPath}` for it (line 116). -/
structure ScoredCand where
  uuid : String
  seq : String
  affinity : ℚ
  stability : ℚ
  pdbPath : String
deriving DecidableEq, Repr

/-- A row of the `protein_bank` table as written by `db.saveProtein`
(`orchestrator.ts` lines 120-129, `database.ts` saveProtein). -/
structure BankRow where
  id : String
  parent_id : String
  sequence : String
  binding_affinity : ℚ
  stability_score : ℚ
  generation : ℕ
  novelty_status : String
  file_path : String
deriving DecidableEq, Repr

/-- The Orchestrator's mutable state relevant to the loop. -/
structure OrchState where
  currentParent : Protein
  stagnationCount : ℕ
  paretoFrontier : List Protein
  seenSequences : List String
deriving DecidableEq, Repr

/-- The initial wild type installed by the constructor (lines 47-54). -/
def initialState : OrchState :=
  { currentParent := { id := none, sequence := "MKTIIALSYIFCLVFADYKDDDDKL", affinity := -5, stability := -5 }
    stagnationCount := 0
    paretoFrontier := (addToPareto [] { id := none, sequence := "MKTIIALSYIFCLVFADYKDDDDKL", affinity := -5, stability := -5 }).1
    seenSequences := [] }

/-- `Gatekeeper.checkNovelty` (gatekeeper.ts lines 4-10): first sight is
NOVEL and inserts into the seen set, otherwise DUPLICATE. -/
def checkNovelty (seen : List String) (s : String) : List String × String :=
  if s ∈ seen then (seen, "DUPLICATE") else (s :: seen, "NOVEL")

/-- The constant from `orchestrator.ts` line 30. -/
def STAGNATION_THRESHOLD : ℕ := 3

/-- The candidate `Protein` built at line 118 from a scored candidate. -/
def toProtein (c : ScoredCand) : Protein :=
  { id := some ("SYN-" ++ c.uuid)
    sequence := c.seq
    affinity := c.affinity
    stability := c.stability }

/-- Accumulator of the per-candidate loop (lines 111-140). -/
structure LoopAcc where
  seen : List String
  pareto : List Protein
  events : List Event
  rows : List BankRow
  best : Option Protein × ℚ

/-- Body of the per-candidate loop (lines 111-140) for generation `g`:
novelty check, validation result banking (`db.saveProtein`),
`new_candidate` emission, Pareto update and the generation-best fold. -/
def processCand (g : ℕ) (acc : LoopAcc) (c : ScoredCand) : LoopAcc :=
  let nv := checkNovelty acc.seen c.seq
  let id := "SYN-" ++ c.uuid
  let p := toProtein c
  let row : BankRow :=
    { id := id
      parent_id := if g = 1 then "WILD_TYPE" else "PREV_GEN"
      sequence := c.seq
      binding_affinity := c.affinity
      stability_score := c.stability
      generation := g
      novelty_status := nv.2
      file_path := if c.pdbPath = "" then "/vault/" ++ id ++ ".pdb" else c.pdbPath }
  let pr := addToPareto acc.pareto p
  { seen := nv.1
    pareto := pr.1
    events := acc.events ++ [Event.new_candidate p g nv.2, pr.2]
    rows := acc.rows ++ [row]
    best := selStep acc.best p }

/-- Result of one iteration of the generation loop. -/
structure GenResult where
  state : OrchState
  events : List Event
  rows : List BankRow
  mutationRate : ℕ

/-- The stagnation counter after the check at the top of a generation
(lines 97-102): reset to 0 when the threshold was reached, else kept. -/
def stagAfterReset (st : OrchState) : ℕ :=
  if STAGNATION_THRESHOLD ≤ st.stagnationCount then 0 else st.stagnationCount

/-- The mutation rate chosen at the top of a generation (lines 97-102):
3 (aggressive) when the stagnation threshold was reached, else 1. -/
def rateOf (st : OrchState) : ℕ :=
  if STAGNATION_THRESHOLD ≤ st.stagnationCount then 3 else 1

/-- The loop accumulator after processing all of a generation's
candidates (lines 107-140), starting from the generation's opening
events and an empty generation-best. -/
def genAcc (g : ℕ) (st : OrchState) (scored : List ScoredCand) : LoopAcc :=
  scored.foldl (processCand g)
    ⟨st.seenSequences, st.paretoFrontier,
     (if STAGNATION_THRESHOLD ≤ st.stagnationCount then
        [Event.log "GENERATION", Event.log "Parent", Event.log "Stagnation Detected"]
      else
        [Event.log "GENERATION", Event.log "Parent"]),
     [], (none, 100)⟩

/-- The acceptance step at the end of a generation (lines 143-151): if
the generation-best exists and strictly improves the parent affinity it
becomes the parent, the stagnation counter is zeroed and an
`evolution_leap` event is emitted; otherwise the (possibly already
reset) counter is incremented and the parent is kept. -/
def finishGeneration (st : OrchState) (acc : LoopAcc) : GenResult :=
  match acc.best.1 with
  | some b =>
    if b.affinity < st.currentParent.affinity then
      { state := ⟨b, 0, acc.pareto, acc.seen⟩
        events := acc.events ++ [Event.log "EVOLUTIONARY LEAP", Event.evolution_leap b]
        rows := acc.rows
        mutationRate := rateOf st }
    else
      { state := ⟨st.currentParent, stagAfterReset st + 1, acc.pareto, acc.seen⟩
        events := acc.events ++ [Event.log "Evolution stalled"]
        rows := acc.rows
        mutationRate := rateOf st }
  | none =>
      { state := ⟨st.currentParent, stagAfterReset st + 1, acc.pareto, acc.seen⟩
        events := acc.events ++ [Event.log "Evolution stalled"]
        rows := acc.rows
        mutationRate := rateOf st }

/-- One iteration of the `for` loop of `Orchestrator.start` (lines
89-155) at generation number `g` (the code sets `this.generation = g+1`
so numbering starts at 1).  `scored` is the oracle list pairing the
Designer's candidates with the Validator's replies, in evaluation
order. -/
def runGeneration (g : ℕ) (st : OrchState) (scored : List ScoredCand) : GenResult :=
  finishGeneration st (genAcc g st scored)

/-- Whether a generation's outcome is an accepted improvement:
a generation-best exists and strictly improves on the parent. -/
def accepted (st : OrchState) (scored : List ScoredCand) : Bool :=
  match specBestCapped (scored.map toProtein) with
  | some b => decide (b.affinity < st.currentParent.affinity)
  | none => false

/-- The whole loop over a run, threading the generation counter and
collecting all rows written to the Ledger, in insertion order. -/
def runLoopAux : ℕ → OrchState → List (List ScoredCand) → OrchState × List BankRow
  | _, st, [] => (st, [])
  | g, st, sc :: rest =>
    let r := runGeneration g st sc
    let rec0 := runLoopAux (g + 1) r.state rest
    (rec0.1, r.rows ++ rec0.2)

/-- `Orchestrator.start`: generations are numbered from 1. -/
def runLoop (st : OrchState) (gens : List (List ScoredCand)) : OrchState × List BankRow :=
  runLoopAux 1 st gens

/-- Result of `Orchestrator.setInitialProtein` (lines 56-72): the new
state, the emitted events, and the list of Evaluator invocations
`(sequence, parentPdb, id)` it performed. -/
structure SeedResult where
  state : OrchState
  events : List Event
  calls : List (String × String × String)
deriving DecidableEq, Repr

/-- `Orchestrator.setInitialProtein` (lines 56-72): the supplied
sequence is passed to `validator.validate` unconditionally (there is no
sequence validation), the result becomes the new parent with id
`CUSTOM_PARENT`, the frontier is reset and re-seeded, the stagnation
counter cleared.  `vres` is the Validator's oracle reply
`(stability, affinity, pdbPath)`. -/
def setInitialProtein (st : OrchState) (sequence pdbPath : String)
    (vres : ℚ × ℚ × String) : SeedResult :=
  let p : Protein :=
    { id := some "CUSTOM_PARENT", sequence := sequence
      affinity := vres.2.1, stability := vres.1 }
  let pr := addToPareto [] p
  { state :=
      { currentParent := p, stagnationCount := 0
        paretoFrontier := pr.1, seenSequences := st.seenSequences }
    events := [Event.log "Validating Initial Protein", pr.2,
               Event.log "Baseline Set", Event.new_candidate p 0 "WILD_TYPE"]
    calls := [(sequence, pdbPath, "initial")] }

/-- The 20-letter amino-acid alphabet of `designer.ts` (line 13). -/
def aminoAcids : List Char := "ACDEFGHIKLMNPQRSTVWY".toList

/-- `Math.floor(r * len)` as a natural index, for a random draw `r`. -/
def jsIndex (r : ℚ) (len : ℕ) : ℕ := (Int.floor (r * len)).toNat

/-- JavaScript array element assignment `chars[idx] = c`: replaces in
range; at `idx = length` it appends — the only out-of-range index
reachable here, since `Math.floor(Math.random() * chars.length)` is 0
when the array is empty. -/
def setAt (chars : List Char) (idx : ℕ) (c : Char) : List Char :=
  if idx < chars.length then chars.set idx c else chars ++ [c]

/-- One iteration of the mutation loop of `Designer.mutate`
(`designer.ts` lines 17-21): a position index drawn from `d.1` and a
replacement residue drawn from `d.2`, both via `Math.random()`. -/
def mutateStep (chars : List Char) (d : ℚ × ℚ) : List Char :=
  setAt chars (jsIndex d.1 chars.length)
    (aminoAcids.getD (jsIndex d.2 aminoAcids.length) 'A')

/-- `Designer.mutate` (lines 11-23); `draws` lists the random pairs of
the `rate` loop iterations, so `draws.length` is the mutation rate. -/
def mutate (seq : String) (draws : List (ℚ × ℚ)) : String :=
  String.mk (draws.foldl mutateStep seq.toList)

/-- `Designer.design` (lines 3-9): one candidate per element of
`drawss`, each mutated independently from the same parent. -/
def design (parentSequence : String) (drawss : List (List (ℚ × ℚ))) : List String :=
  drawss.map (mutate parentSequence)

/-- A random draw pair is valid when both components lie in `[0, 1)`,
the range of `Math.random()`. -/
def ValidDraw (d : ℚ × ℚ) : Prop := 0 ≤ d.1 ∧ d.1 < 1 ∧ 0 ≤ d.2 ∧ d.2 < 1

instance decidableValidDraw (d : ℚ × ℚ) : Decidable (ValidDraw d) :=
  inferInstanceAs (Decidable (0 ≤ d.1 ∧ d.1 < 1 ∧ 0 ≤ d.2 ∧ d.2 < 1))

/-- Number of aligned positions at which two character lists differ. -/
def diffCount (a b : List Char) : ℕ :=
  (a.zip b).countP (fun p => decide (p.1 ≠ p.2))

/-- A concrete generation whose only candidate fails the stability gate
(stability 0 is not `< -4`), so it can never be accepted. -/
def stallGen : List ScoredCand :=
  [{ uuid := "aa", seq := "SSS", affinity := -1, stability := 0, pdbPath := "" }]

/-- `Number.prototype.toFixed(2)` followed by `parseFloat`
(`validator.ts` lines 27-28): the nearest multiple of 1/100, ties
resolved toward the larger value (ECMA-262 toFixed picks the larger
integer on ties). -/
def round2 (x : ℚ) : ℚ := ((Int.floor (x * 100 + 1/2) : ℤ) : ℚ) / 100

/-- The heuristic `Validator.validate` (`validator.ts` lines 7-31) with
its three `Math.random()` draws passed explicitly: `rFactor` decides
the 10% evolutionary-leap bonus (`randomFactor > 0.9`), `rS` and `rA`
are the stability and affinity noise draws.  Returns
`(stability, affinity)`. -/
def simValidate (rFactor rS rA : ℚ) : ℚ × ℚ :=
  let isLeap := decide ((9 : ℚ)/10 < rFactor)
  let stability := -5 + (rS * 4 - 2) - (if isLeap then (3 : ℚ)/2 else 0)
  let affinity := -6 + (rA * 4 - 2) - (if isLeap then (3 : ℚ)/2 else 0)
  (round2 stability, round2 affinity)

/-- Decimal digit run to a natural number. -/
def digitsToNat : List Char → ℕ → ℕ
  | [], acc => acc
  | c :: cs, acc => digitsToNat cs (acc * 10 + (c.toNat - ('0').toNat))

/-- The unsigned decimal-literal head of JS `parseFloat`: digits,
optionally a dot and more digits; at least one digit overall.  Returns
the value and the unconsumed remainder. -/
def parseMantissa (l : List Char) : Option (ℚ × List Char) :=
  let ip := l.takeWhile Char.isDigit
  let l1 := l.dropWhile Char.isDigit
  match l1 with
  | '.' :: l2 =>
    let fp := l2.takeWhile Char.isDigit
    let l3 := l2.dropWhile Char.isDigit
    if ip = [] ∧ fp = [] then none
    else some (((digitsToNat ip 0 : ℕ) : ℚ)
      + ((digitsToNat fp 0 : ℕ) : ℚ) / ((10 : ℚ) ^ fp.length), l3)
  | _ =>
    if ip = [] then none
    else some (((digitsToNat ip 0 : ℕ) : ℚ), l1)

/-- Exponent digits after an optional sign; `none` when no digit
follows (then the exponent marker is not part of the longest valid
prefix and is ignored). -/
def expDigits (ds : List Char) : Option ℕ :=
  let d := ds.takeWhile Char.isDigit
  if d = [] then none else some (digitsToNat d 0)

/-- Apply a signed exponent tail. -/
def applyExpSigned (x : ℚ) (rest : List Char) : ℚ :=
  match rest with
  | '+' :: ds =>
    match expDigits ds with
    | some e => x * (10 : ℚ) ^ e
    | none => x
  | '-' :: ds =>
    match expDigits ds with
    | some e => x / (10 : ℚ) ^ e
    | none => x
  | ds =>
    match expDigits ds with
    | some e => x * (10 : ℚ) ^ e
    | none => x

/-- Optional exponent part of the literal. -/
def applyExponent (x : ℚ) (l : List Char) : ℚ :=
  match l with
  | 'e' :: rest => applyExpSigned x rest
  | 'E' :: rest => applyExpSigned x rest
  | _ => x

/-- JS `parseFloat` on the finite-decimal fragment: leading whitespace
skipped, optional sign, longest valid decimal literal prefix; `none`
models a non-finite result (`NaN` when no literal prefix exists; the
textual form `Infinity` is out of scope of this model and also mapped
to `none`). -/
def parseFloatQ (s : String) : Option ℚ :=
  let l := s.toList.dropWhile Char.isWhitespace
  match l with
  | '-' :: rest => (parseMantissa rest).map (fun pr => -(applyExponent pr.1 pr.2))
  | '+' :: rest => (parseMantissa rest).map (fun pr => applyExponent pr.1 pr.2)
  | _ => (parseMantissa l).map (fun pr => applyExponent pr.1 pr.2)

/-- Strip an exact literal from the head of a character list. -/
def stripLit : List Char → List Char → Option (List Char)
  | [], l => some l
  | _, [] => none
  | p :: ps, c :: cs => if c = p then stripLit ps cs else none

/-- Try matching `/REMARK VINA RESULT:\s+([-\d.]+)/` at the head of the
list: the literal, at least one whitespace, then the longest nonempty
run of digits, `-` and `.` as the capture. -/
def vinaTryHere (l : List Char) : Option (List Char) :=
  match stripLit ("REMARK VINA RESULT:".toList) l with
  | none => none
  | some l1 =>
    if l1.takeWhile Char.isWhitespace = [] then none
    else
      let l2 := l1.dropWhile Char.isWhitespace
      let cap := l2.takeWhile (fun c => c.isDigit || c = '-' || c = '.')
      if cap = [] then none else some cap

/-- `String.prototype.match` with the Vina-result pattern: first
position where the pattern matches, returning the capture group
(`validator_real.ts` line 59). -/
def vinaMatch : List Char → Option (List Char)
  | [] => none
  | c :: rest =>
    match vinaTryHere (c :: rest) with
    | some cap => some cap
    | none => vinaMatch rest

/-- `String.prototype.trim`: whitespace removed from both ends. -/
def jsTrim (s : String) : String :=
  String.mk (((s.toList.dropWhile Char.isWhitespace).reverse.dropWhile
    Char.isWhitespace).reverse)

/-- `String.prototype.split` with a single-character separator (the
only form the validator uses). -/
def jsSplitOnAux (sep : Char) : List Char → List Char → List String
  | [], acc => [String.mk acc.reverse]
  | c :: cs, acc =>
    if c = sep then String.mk acc.reverse :: jsSplitOnAux sep cs []
    else jsSplitOnAux sep cs (c :: acc)

/-- `content.split(sep)` for a one-character separator. -/
def jsSplitOn (sep : Char) (s : String) : List String :=
  jsSplitOnAux sep s.toList []

/-- `String.prototype.startsWith` on exact literals. -/
def startsWithLit (p f : String) : Bool := (stripLit p.toList f.toList).isSome

/-- `String.prototype.endsWith` on exact literals. -/
def endsWithLit (p f : String) : Bool :=
  (stripLit p.toList.reverse f.toList.reverse).isSome

/-- The result record of `RealValidator.validate`; the scores are JS
numbers that may be `NaN` (`none`). -/
structure RValidationResult where
  stability : Option ℚ
  affinity : Option ℚ
  pdbPath : String
deriving DecidableEq, Repr

/-- The penalty result of the outer catch (`validator_real.ts` lines
81-85): stability 100.0, affinity 0.0, empty structure path. -/
def penaltyResult : RValidationResult :=
  { stability := some 100, affinity := some 0, pdbPath := "" }

/-- `CONFIG.PATHS.WORK_DIR` (`config.ts`), abstracted to a name. -/
def WORK_DIR : String := "workspace"

/-- `path.join(CONFIG.PATHS.WORK_DIR, id)` (`validator_real.ts` line 15). -/
def workDirOf (id : String) : String := WORK_DIR ++ "/" ++ id

/-- Oracle for the environment one `RealValidator.validate` call
observes: whether `fs.mkdir` and the two `execAsync` tool invocations
succeed, the directory listing `fs.readdir(workDir)` (`none` = throws),
and the per-file `fs.readFile` results within the working directory
(`none` = throws, e.g. ENOENT). -/
structure ToolEnv where
  mkdirOk : Bool
  foldxOk : Bool
  vinaOk : Bool
  workFiles : Option (List String)
  readFile : String → Option String

/-- The body of `RealValidator.validate` inside the outer `try`
(`validator_real.ts` lines 16-74); `Except.error` models an exception
reaching the outer catch.  A missing Vina output file or an unmatched
result pattern is absorbed by the inner catch (lines 57-68), leaving
affinity 0.0; a FoldX data line with fewer than two tab-separated
columns yields `parseFloat(undefined) = NaN`. -/
def validateRealBody (env : ToolEnv) (id : String) : Except String RValidationResult :=
  if ¬ env.mkdirOk then Except.error "mkdir failed"
  else if ¬ env.foldxOk then Except.error "foldx exec failed"
  else if ¬ env.vinaOk then Except.error "vina exec failed"
  else
    match env.workFiles with
    | none => Except.error "readdir failed"
    | some files =>
      match files.find? (fun f => startsWithLit "Raw_" f && endsWithLit ".fx" f) with
      | none => Except.error "FoldX output file not found."
      | some fx =>
        match env.readFile fx with
        | none => Except.error "readFile foldx failed"
        | some content =>
          let lines := jsSplitOn '\n' (jsTrim content)
          let stabilityScore : Option ℚ :=
            if 2 ≤ lines.length then
              match (jsSplitOn '\t' (lines.getLastD "")).get? 1 with
              | some col => parseFloatQ col
              | none => none
            else some 0
          let affinityScore : Option ℚ :=
            match env.readFile "mutant.pdbqt" with
            | none => some 0
            | some vc =>
              match vinaMatch vc.toList with
              | some cap => parseFloatQ (String.mk cap)
              | none => some 0
          Except.ok
            { stability := stabilityScore
              affinity := affinityScore
              pdbPath := workDirOf id ++ "/mutant.pdb" }

/-- `RealValidator.validate` (`validator_real.ts` lines 13-88): any
exception reaching the outer catch is converted to the penalty result
instead of being re-thrown. -/
def validateReal (env : ToolEnv) (sequence parentPdb id : String) : RValidationResult :=
  match validateRealBody env id with
  | Except.ok r => r
  | Except.error _ => penaltyResult

/-- `Database.saveProtein`: a plain `INSERT`, i.e. append in rowid
order. -/
def saveProtein (bank : List BankRow) (row : BankRow) : List BankRow := bank ++ [row]

/-- A row of minimal `binding_affinity` in the table. -/
def MinimalAffinity (bank : List BankRow) (r : BankRow) : Prop :=
  r ∈ bank ∧ ∀ s ∈ bank, r.binding_affinity ≤ s.binding_affinity

instance decidableMinimalAffinity (bank : List BankRow) (r : BankRow) :
    Decidable (MinimalAffinity bank r) :=
  inferInstanceAs (Decidable (_ ∧ _))

/-- `Database.getBestProtein` runs `SELECT * FROM protein_bank ORDER BY
binding_affinity ASC LIMIT 1`.  The query names no secondary sort key,
so SQLite leaves the order among rows of equal affinity unspecified:
the call is modelled as a relation between the table (in insertion
order) and the returned row — `none` exactly on an empty table,
otherwise some row of minimal binding affinity. -/
def GetBestResult (bank : List BankRow) (res : Option BankRow) : Prop :=
  (bank = [] ∧ res = none) ∨ (∃ r, res = some r ∧ MinimalAffinity bank r)

/-- Modelled from the spec: lowest affinity with ties broken in favour
of the most recently recorded candidate (the fold keeps the later row
on ties). -/
def bestMostRecent (bank : List BankRow) : Option BankRow :=
  bank.foldl (fun acc r =>
    match acc with
    | none => some r
    | some b => if r.binding_affinity ≤ b.binding_affinity then some r else some b) none

/-- A bank row with a given id and affinity, other fields fixed. -/
def rowWithAff (i : String) (a : ℚ) : BankRow :=
  { id := i, parent_id := "WILD_TYPE", sequence := "S", binding_affinity := a
    stability_score := -5, generation := 1, novelty_status := "NOVEL", file_path := "p" }

/-- The three-row table of the spec's Ledger example, recorded in the
order `[-5.0, -9.2, -3.1]`. -/
def bankExample : List BankRow :=
  [rowWithAff "A" (-5), rowWithAff "B" (-9.2), rowWithAff "C" (-3.1)]

theorem addToPareto_emit (f : List Protein) (p : Protein) :
    (addToPareto f p).2 = Event.pareto_update (addToPareto f p).1 := by
  by_cases h : PARETO_CAP < f.length + 1 <;> simp [addToPareto, h]

theorem addToPareto_fst_of_le (f : List Protein) (p : Protein)
    (h : f.length + 1 ≤ PARETO_CAP) : (addToPareto f p).1 = f ++ [p] := by
  have hn : ¬ PARETO_CAP < f.length + 1 := by omega
  simp [addToPareto, hn]

theorem addToPareto_fst_of_full (f : List Protein) (p : Protein)
    (h : PARETO_CAP < f.length + 1) : (addToPareto f p).1 = (f ++ [p]).tail := by
  simp [addToPareto, h]

theorem addAll_append (f : List Protein) (l1 l2 : List Protein) :
    addAll f (l1 ++ l2) = addAll (addAll f l1) l2 := by
  simp [addAll, List.foldl_append]

theorem addAll_no_evict : ∀ (ps f : List Protein),
    f.length + ps.length ≤ PARETO_CAP → addAll f ps = f ++ ps := by
  intro ps
  induction ps with
  | nil => intro f _; simp [addAll]
  | cons p ps ih =>
    intro f h
    have hstep : (addToPareto f p).1 = f ++ [p] := by
      apply addToPareto_fst_of_le
      simp at h
      omega
    have : addAll f (p :: ps) = addAll (f ++ [p]) ps := by
      simp [addAll, List.foldl_cons, hstep]
    rw [this, ih]
    · simp
    · simp at h ⊢
      omega

theorem selFold_some (l : List Protein) : ∀ (b : Protein), b.affinity < 100 →
    (l.foldl selStep (some b, b.affinity)).1
      = (l.filter eligCapped).foldl minStep (some b) := by
  induction l with
  | nil => intro b _; rfl
  | cons c l ih =>
    intro b hb
    by_cases hc : c.affinity < b.affinity ∧ c.stability < -4 ∧ c.affinity ≠ 0
    · have hstep : selStep (some b, b.affinity) c = (some c, c.affinity) := by
        simp [selStep, hc]
      have helig : eligCapped c = true := by
        simp [eligCapped]
        exact ⟨⟨hc.2.1, hc.2.2⟩, lt_trans hc.1 hb⟩
      have hmin : minStep (some b) c = some c := by
        simp [minStep, hc.1]
      simp only [List.foldl_cons, hstep, List.filter_cons, helig, if_pos, hmin]
      exact ih c (lt_trans hc.1 hb)
    · have hstep : selStep (some b, b.affinity) c = (some b, b.affinity) := by
        simp only [selStep, if_neg hc]
      by_cases helig : eligCapped c = true
      · have hnotlt : ¬ c.affinity < b.affinity := by
          intro hlt
          apply hc
          simp [eligCapped] at helig
          exact ⟨hlt, helig.1.1, helig.1.2⟩
        have hmin : minStep (some b) c = some b := by
          simp [minStep, hnotlt]
        simp only [List.foldl_cons, hstep, List.filter_cons, helig, if_pos, hmin]
        exact ih b hb
      · have helig2 : eligCapped c = false := by
          simpa using helig
        simp only [List.foldl_cons, hstep, List.filter_cons, helig2]
        simp only [Bool.false_eq_true, if_false]
        exact ih b hb

theorem selFold_none (l : List Protein) :
    (l.foldl selStep (none, 100)).1 = (l.filter eligCapped).foldl minStep none := by
  induction l with
  | nil => rfl
  | cons c l ih =>
    by_cases hc : c.affinity < 100 ∧ c.stability < -4 ∧ c.affinity ≠ 0
    · have hstep : selStep (none, 100) c = (some c, c.affinity) := by
        simp [selStep, hc]
      have helig : eligCapped c = true := by
        simp [eligCapped]
        exact ⟨⟨hc.2.1, hc.2.2⟩, hc.1⟩
      have hmin : minStep none c = some c := by rfl
      simp only [List.foldl_cons, hstep, List.filter_cons, helig, if_pos, hmin]
      exact selFold_some l c hc.1
    · have hstep : selStep (none, 100) c = (none, 100) := by
        simp only [selStep, if_neg hc]
      have helig : eligCapped c = false := by
        simp [eligCapped]
        intro h1 h2
        by_contra h3
        simp at h3
        exact hc ⟨h3, h1, h2⟩
      simp only [List.foldl_cons, hstep, List.filter_cons, helig]
      simp only [Bool.false_eq_true, if_false]
      exact ih

/-- The code's generation-best fold computes exactly the capped
first-wins affinity minimum over the eligible candidates. -/
theorem selectBest_eq_specBestCapped (cands : List Protein) :
    selectBest cands = specBestCapped cands :=
  selFold_none cands

/-- C5: the Pareto tracker appends unconditionally and evicts exactly the
single oldest entry beyond 200 entries: after 201 adds starting from an
empty frontier the tracked set is exactly the last 200 entries added, so
it has size 200 and no longer contains the first-added candidate; and
every add emits the full current set to observers. -/
theorem C5_pareto_bound (c0 : Protein) (rest : List Protein)
    (hlen : rest.length = 200) (hmem : c0 ∉ rest) :
    addAll [] (c0 :: rest) = rest ∧
    (addAll [] (c0 :: rest)).length = 200 ∧
    c0 ∉ addAll [] (c0 :: rest) ∧
    ∀ (f : List Protein) (p : Protein),
      (addToPareto f p).2 = Event.pareto_update (addToPareto f p).1 := by
  have hne : rest ≠ [] := by
    intro h
    rw [h] at hlen
    simp at hlen
  have hsplit : rest.dropLast ++ [rest.getLast hne] = rest :=
    List.dropLast_append_getLast hne
  have hdl : rest.dropLast.length = 199 := by
    rw [List.length_dropLast, hlen]
  have key : addAll [] (c0 :: rest) = rest := by
    conv_lhs => rw [← hsplit]
    have hcons : c0 :: (rest.dropLast ++ [rest.getLast hne])
        = (c0 :: rest.dropLast) ++ [rest.getLast hne] := by simp
    rw [hcons, addAll_append]
    have h1 : addAll [] (c0 :: rest.dropLast) = c0 :: rest.dropLast := by
      have h2 := addAll_no_evict (c0 :: rest.dropLast) [] (by simp [hdl, PARETO_CAP])
      simpa using h2
    rw [h1]
    have h3 : addAll (c0 :: rest.dropLast) [rest.getLast hne]
        = (addToPareto (c0 :: rest.dropLast) (rest.getLast hne)).1 := by
      simp [addAll]
    rw [h3, addToPareto_fst_of_full]
    · simp
      exact hsplit
    · simp [hdl, PARETO_CAP]
  refine ⟨key, ?_, ?_, fun f p => addToPareto_emit f p⟩
  · rw [key, hlen]
  · rw [key]
    exact hmem

/-- Closed witness for `C5_pareto_bound` at a concrete 201-add trace. -/
theorem C5_pareto_bound_witness :
    (List.replicate 200 (Protein.mk none "B" (-5) (-5))).length = 200 ∧
    Protein.mk none "A" (-5) (-5) ∉ List.replicate 200 (Protein.mk none "B" (-5) (-5)) ∧
    (addAll [] (Protein.mk none "A" (-5) (-5) :: List.replicate 200 (Protein.mk none "B" (-5) (-5)))
      = List.replicate 200 (Protein.mk none "B" (-5) (-5)) ∧
     (addAll [] (Protein.mk none "A" (-5) (-5) :: List.replicate 200 (Protein.mk none "B" (-5) (-5)))).length = 200 ∧
     Protein.mk none "A" (-5) (-5) ∉ addAll [] (Protein.mk none "A" (-5) (-5) :: List.replicate 200 (Protein.mk none "B" (-5) (-5))) ∧
     ∀ (f : List Protein) (p : Protein),
       (addToPareto f p).2 = Event.pareto_update (addToPareto f p).1) := by
  refine ⟨by rw [List.length_replicate], ?_, ?_⟩
  · intro h
    have h2 := List.eq_of_mem_replicate h
    simp at h2
  · apply C5_pareto_bound
    · rw [List.length_replicate]
    · intro h
      have h2 := List.eq_of_mem_replicate h
      simp at h2

theorem fold_best (g : ℕ) : ∀ (scored : List ScoredCand) (acc : LoopAcc),
    (scored.foldl (processCand g) acc).best
      = (scored.map toProtein).foldl selStep acc.best := by
  intro scored
  induction scored with
  | nil => intro acc; rfl
  | cons c scored ih =>
    intro acc
    simp only [List.foldl_cons, List.map_cons]
    rw [ih]
    rfl

theorem genAcc_best (g : ℕ) (st : OrchState) (scored : List ScoredCand) :
    (genAcc g st scored).best.1 = specBestCapped (scored.map toProtein) := by
  unfold genAcc
  rw [fold_best]
  exact selFold_none (scored.map toProtein)

theorem fold_events_leaps (g : ℕ) : ∀ (scored : List ScoredCand) (acc : LoopAcc),
    countLeaps (scored.foldl (processCand g) acc).events = countLeaps acc.events := by
  intro scored
  induction scored with
  | nil => intro acc; rfl
  | cons c scored ih =>
    intro acc
    simp only [List.foldl_cons]
    rw [ih]
    have hev : (processCand g acc c).events
        = acc.events
            ++ [Event.new_candidate (toProtein c) g (checkNovelty acc.seen c.seq).2,
                (addToPareto acc.pareto (toProtein c)).2] := rfl
    rw [hev, countLeaps, List.countP_append, addToPareto_emit]
    simp [countLeaps, isLeapEvent, List.countP_cons]

theorem genAcc_countLeaps (g : ℕ) (st : OrchState) (scored : List ScoredCand) :
    countLeaps (genAcc g st scored).events = 0 := by
  unfold genAcc
  rw [fold_events_leaps]
  by_cases h : STAGNATION_THRESHOLD ≤ st.stagnationCount <;>
    simp [h, countLeaps, isLeapEvent, List.countP_cons]

theorem fold_rows (g : ℕ) : ∀ (scored : List ScoredCand) (acc : LoopAcc) (row : BankRow),
    row ∈ (scored.foldl (processCand g) acc).rows →
    row ∈ acc.rows ∨ (row.generation = g ∧
      row.parent_id = if g = 1 then "WILD_TYPE" else "PREV_GEN") := by
  intro scored
  induction scored with
  | nil => intro acc row h; exact Or.inl h
  | cons c scored ih =>
    intro acc row h
    simp only [List.foldl_cons] at h
    rcases ih _ row h with h2 | h2
    · have h3 : row ∈ acc.rows ++ [{
          id := "SYN-" ++ c.uuid
          parent_id := if g = 1 then "WILD_TYPE" else "PREV_GEN"
          sequence := c.seq
          binding_affinity := c.affinity
          stability_score := c.stability
          generation := g
          novelty_status := (checkNovelty acc.seen c.seq).2
          file_path := if c.pdbPath = "" then "/vault/" ++ ("SYN-" ++ c.uuid) ++ ".pdb"
                       else c.pdbPath : BankRow }] := h2
      rcases List.mem_append.mp h3 with h4 | h4
      · exact Or.inl h4
      · have h5 := List.mem_singleton.mp h4
        subst h5
        exact Or.inr ⟨rfl, rfl⟩
    · exact Or.inr h2

theorem genAcc_rows_mem (g : ℕ) (st : OrchState) (scored : List ScoredCand) (row : BankRow)
    (h : row ∈ (genAcc g st scored).rows) :
    row.generation = g ∧ row.parent_id = if g = 1 then "WILD_TYPE" else "PREV_GEN" := by
  unfold genAcc at h
  rcases fold_rows g scored _ row h with h2 | h2
  · simp at h2
  · exact h2

theorem finishGeneration_none (st : OrchState) (acc : LoopAcc) (h : acc.best.1 = none) :
    finishGeneration st acc =
      { state := ⟨st.currentParent, stagAfterReset st + 1, acc.pareto, acc.seen⟩
        events := acc.events ++ [Event.log "Evolution stalled"]
        rows := acc.rows
        mutationRate := rateOf st } := by
  simp [finishGeneration, h]

theorem finishGeneration_accept (st : OrchState) (acc : LoopAcc) (b : Protein)
    (h : acc.best.1 = some b) (himp : b.affinity < st.currentParent.affinity) :
    finishGeneration st acc =
      { state := ⟨b, 0, acc.pareto, acc.seen⟩
        events := acc.events ++ [Event.log "EVOLUTIONARY LEAP", Event.evolution_leap b]
        rows := acc.rows
        mutationRate := rateOf st } := by
  simp [finishGeneration, h, himp]

theorem finishGeneration_stall (st : OrchState) (acc : LoopAcc) (b : Protein)
    (h : acc.best.1 = some b) (himp : ¬ b.affinity < st.currentParent.affinity) :
    finishGeneration st acc =
      { state := ⟨st.currentParent, stagAfterReset st + 1, acc.pareto, acc.seen⟩
        events := acc.events ++ [Event.log "Evolution stalled"]
        rows := acc.rows
        mutationRate := rateOf st } := by
  simp [finishGeneration, h, himp]

theorem runGeneration_stag (g : ℕ) (st : OrchState) (scored : List ScoredCand) :
    (runGeneration g st scored).state.stagnationCount
      = if accepted st scored then 0 else stagAfterReset st + 1 := by
  unfold runGeneration accepted
  cases hb : specBestCapped (scored.map toProtein) with
  | none =>
    rw [finishGeneration_none st _ (by rw [genAcc_best, hb])]
    simp
  | some b =>
    by_cases himp : b.affinity < st.currentParent.affinity
    · rw [finishGeneration_accept st _ b (by rw [genAcc_best, hb]) himp]
      simp [himp]
    · rw [finishGeneration_stall st _ b (by rw [genAcc_best, hb]) himp]
      simp [himp]

theorem runGeneration_parent_stall (g : ℕ) (st : OrchState) (scored : List ScoredCand)
    (h : accepted st scored = false) :
    (runGeneration g st scored).state.currentParent = st.currentParent := by
  unfold runGeneration
  unfold accepted at h
  cases hb : specBestCapped (scored.map toProtein) with
  | none =>
    rw [finishGeneration_none st _ (by rw [genAcc_best, hb])]
  | some b =>
    rw [hb] at h
    simp at h
    rw [finishGeneration_stall st _ b (by rw [genAcc_best, hb]) (not_lt.mpr h)]

theorem runGeneration_rate (g : ℕ) (st : OrchState) (scored : List ScoredCand) :
    (runGeneration g st scored).mutationRate = rateOf st := by
  unfold runGeneration
  cases hb : (genAcc g st scored).best.1 with
  | none => rw [finishGeneration_none st _ hb]
  | some b =>
    by_cases himp : b.affinity < st.currentParent.affinity
    · rw [finishGeneration_accept st _ b hb himp]
    · rw [finishGeneration_stall st _ b hb himp]

theorem runGeneration_leaps (g : ℕ) (st : OrchState) (scored : List ScoredCand) :
    countLeaps (runGeneration g st scored).events
      = if accepted st scored then 1 else 0 := by
  unfold runGeneration accepted
  cases hb : specBestCapped (scored.map toProtein) with
  | none =>
    rw [finishGeneration_none st _ (by rw [genAcc_best, hb])]
    simp [countLeaps, List.countP_append, isLeapEvent, List.countP_cons]
    have := genAcc_countLeaps g st scored
    simpa [countLeaps] using this
  | some b =>
    by_cases himp : b.affinity < st.currentParent.affinity
    · rw [finishGeneration_accept st _ b (by rw [genAcc_best, hb]) himp]
      simp [himp, countLeaps, List.countP_append, isLeapEvent, List.countP_cons]
      have := genAcc_countLeaps g st scored
      simpa [countLeaps] using this
    · rw [finishGeneration_stall st _ b (by rw [genAcc_best, hb]) himp]
      simp [himp, countLeaps, List.countP_append, isLeapEvent, List.countP_cons]
      have := genAcc_countLeaps g st scored
      simpa [countLeaps] using this

theorem runGeneration_rows_eq (g : ℕ) (st : OrchState) (scored : List ScoredCand) :
    (runGeneration g st scored).rows = (genAcc g st scored).rows := by
  unfold runGeneration
  cases hb : (genAcc g st scored).best.1 with
  | none => rw [finishGeneration_none st _ hb]
  | some b =>
    by_cases himp : b.affinity < st.currentParent.affinity
    · rw [finishGeneration_accept st _ b hb himp]
    · rw [finishGeneration_stall st _ b hb himp]

/-- C1 (amended): per generation, the Controller selects as
generation-best the first-wins lowest-affinity candidate among those
with stability strictly below -4.0, affinity not equal to the zero
sentinel, and affinity strictly below 100 (the initial best-score
sentinel); it emits exactly one `evolution_leap` event iff such a
generation-best exists and strictly improves on the parent affinity, in
which case it becomes the new parent and the stagnation counter is
reset to 0; otherwise the parent is kept and the (possibly
escalation-reset) stagnation counter is incremented. -/
theorem C1_generation_selection (g : ℕ) (st : OrchState) (scored : List ScoredCand) :
    selectBest (scored.map toProtein) = specBestCapped (scored.map toProtein) ∧
    countLeaps (runGeneration g st scored).events
      = (if accepted st scored then 1 else 0) ∧
    (∀ b, specBestCapped (scored.map toProtein) = some b →
       b.affinity < st.currentParent.affinity →
       (runGeneration g st scored).state.currentParent = b ∧
       (runGeneration g st scored).state.stagnationCount = 0) ∧
    (accepted st scored = false →
       (runGeneration g st scored).state.currentParent = st.currentParent ∧
       (runGeneration g st scored).state.stagnationCount = stagAfterReset st + 1) := by
  refine ⟨selectBest_eq_specBestCapped _, runGeneration_leaps g st scored, ?_, ?_⟩
  · intro b hb himp
    unfold runGeneration
    rw [finishGeneration_accept st _ b (by rw [genAcc_best, hb]) himp]
    exact ⟨rfl, rfl⟩
  · intro hacc
    refine ⟨runGeneration_parent_stall g st scored hacc, ?_⟩
    rw [runGeneration_stag, hacc]
    simp

/-- Witness for C1 at the acceptance example of the spec: parent
affinity -6, a single candidate with affinity -7 and stability -5 is
adopted with stagnation reset. -/
theorem C1_generation_selection_witness :
    specBestCapped ([ScoredCand.mk "ab" "S" (-7) (-5) ""].map toProtein)
      = some (toProtein (ScoredCand.mk "ab" "S" (-7) (-5) "")) ∧
    (toProtein (ScoredCand.mk "ab" "S" (-7) (-5) "")).affinity
      < (OrchState.mk (Protein.mk none "P" (-6) (-5)) 0 [] []).currentParent.affinity ∧
    ((runGeneration 1 (OrchState.mk (Protein.mk none "P" (-6) (-5)) 0 [] [])
        [ScoredCand.mk "ab" "S" (-7) (-5) ""]).state.currentParent
      = toProtein (ScoredCand.mk "ab" "S" (-7) (-5) "") ∧
     (runGeneration 1 (OrchState.mk (Protein.mk none "P" (-6) (-5)) 0 [] [])
        [ScoredCand.mk "ab" "S" (-7) (-5) ""]).state.stagnationCount = 0) := by
  refine ⟨by decide, by decide, ?_⟩
  exact (C1_generation_selection 1 (OrchState.mk (Protein.mk none "P" (-6) (-5)) 0 [] [])
    [ScoredCand.mk "ab" "S" (-7) (-5) ""]).2.2.1
    (toProtein (ScoredCand.mk "ab" "S" (-7) (-5) "")) (by decide) (by decide)

/-- C1 counterexample: with parent affinity 200 and a single candidate
with affinity 150 and stability -5 — eligible under the claim's stated
criteria (stability < -4, affinity ≠ 0) and strictly improving
(150 < 200) — the code emits no `evolution_leap`, keeps the parent and
increments the stagnation counter, because the selection fold starts
from the sentinel score 100 and never selects a candidate whose
affinity is not strictly below 100. -/
theorem C1_counterexample :
    ((-5 : ℚ) < -4 ∧ (150 : ℚ) ≠ 0 ∧ (150 : ℚ) < 200) ∧
    countLeaps (runGeneration 1 (OrchState.mk (Protein.mk none "P" 200 (-5)) 0 [] [])
      [ScoredCand.mk "aa" "S" 150 (-5) ""]).events = 0 ∧
    (runGeneration 1 (OrchState.mk (Protein.mk none "P" 200 (-5)) 0 [] [])
      [ScoredCand.mk "aa" "S" 150 (-5) ""]).state.currentParent
      = Protein.mk none "P" 200 (-5) ∧
    (runGeneration 1 (OrchState.mk (Protein.mk none "P" 200 (-5)) 0 [] [])
      [ScoredCand.mk "aa" "S" 150 (-5) ""]).state.stagnationCount = 1 := by
  decide

/-- C3 (amended): after exactly 3 consecutive generations with no
accepted improvement the stagnation counter reaches 3, the next (4th)
generation runs with mutation intensity 3 instead of 1, and the counter
is reset to 0 at the start of that escalated generation — so
immediately after the escalated generation the counter is 0 if the
generation accepted an improvement and 1 otherwise (not 0 regardless of
outcome). -/
theorem C3_stagnation_escalation (st1 st2 st3 st4 : OrchState)
    (g1 g2 g3 g4 : List ScoredCand)
    (h0 : st1.stagnationCount = 0)
    (a1 : accepted st1 g1 = false) (e1 : st2 = (runGeneration 1 st1 g1).state)
    (a2 : accepted st2 g2 = false) (e2 : st3 = (runGeneration 2 st2 g2).state)
    (a3 : accepted st3 g3 = false) (e3 : st4 = (runGeneration 3 st3 g3).state) :
    (runGeneration 1 st1 g1).mutationRate = 1 ∧
    (runGeneration 2 st2 g2).mutationRate = 1 ∧
    (runGeneration 3 st3 g3).mutationRate = 1 ∧
    st4.stagnationCount = 3 ∧
    (runGeneration 4 st4 g4).mutationRate = 3 ∧
    (runGeneration 4 st4 g4).state.stagnationCount
      = if accepted st4 g4 then 0 else 1 := by
  have hs2 : st2.stagnationCount = 1 := by
    rw [e1, runGeneration_stag, a1]
    simp [stagAfterReset, STAGNATION_THRESHOLD, h0]
  have hs3 : st3.stagnationCount = 2 := by
    rw [e2, runGeneration_stag, a2]
    simp [stagAfterReset, STAGNATION_THRESHOLD, hs2]
  have hs4 : st4.stagnationCount = 3 := by
    rw [e3, runGeneration_stag, a3]
    simp [stagAfterReset, STAGNATION_THRESHOLD, hs3]
  refine ⟨?_, ?_, ?_, hs4, ?_, ?_⟩
  · rw [runGeneration_rate]
    simp [rateOf, STAGNATION_THRESHOLD, h0]
  · rw [runGeneration_rate]
    simp [rateOf, STAGNATION_THRESHOLD, hs2]
  · rw [runGeneration_rate]
    simp [rateOf, STAGNATION_THRESHOLD, hs3]
  · rw [runGeneration_rate]
    simp [rateOf, STAGNATION_THRESHOLD, hs4]
  · rw [runGeneration_stag]
    simp [stagAfterReset, STAGNATION_THRESHOLD, hs4]

/-- Witness for C3 on a concrete 4-generation trace of always-stalling
candidates starting from the constructor state. -/
theorem C3_stagnation_escalation_witness :
    initialState.stagnationCount = 0 ∧
    accepted initialState stallGen = false ∧
    accepted (runGeneration 1 initialState stallGen).state stallGen = false ∧
    accepted (runGeneration 2 (runGeneration 1 initialState stallGen).state stallGen).state
      stallGen = false ∧
    ((runGeneration 1 initialState stallGen).mutationRate = 1 ∧
     (runGeneration 2 (runGeneration 1 initialState stallGen).state stallGen).mutationRate = 1 ∧
     (runGeneration 3 (runGeneration 2 (runGeneration 1 initialState stallGen).state
        stallGen).state stallGen).mutationRate = 1 ∧
     (runGeneration 3 (runGeneration 2 (runGeneration 1 initialState stallGen).state
        stallGen).state stallGen).state.stagnationCount = 3 ∧
     (runGeneration 4 (runGeneration 3 (runGeneration 2 (runGeneration 1 initialState
        stallGen).state stallGen).state stallGen).state stallGen).mutationRate = 3 ∧
     (runGeneration 4 (runGeneration 3 (runGeneration 2 (runGeneration 1 initialState
        stallGen).state stallGen).state stallGen).state stallGen).state.stagnationCount
      = if accepted (runGeneration 3 (runGeneration 2 (runGeneration 1 initialState
          stallGen).state stallGen).state stallGen).state stallGen then 0 else 1) := by
  refine ⟨rfl, by decide, by decide, by decide, ?_⟩
  exact C3_stagnation_escalation initialState
    (runGeneration 1 initialState stallGen).state
    (runGeneration 2 (runGeneration 1 initialState stallGen).state stallGen).state
    (runGeneration 3 (runGeneration 2 (runGeneration 1 initialState stallGen).state
      stallGen).state stallGen).state
    stallGen stallGen stallGen stallGen
    rfl (by decide) rfl (by decide) rfl (by decide) rfl

/-- C3 counterexample: after three stalled generations the 4th runs
escalated (mutation rate 3), yet when it also stalls the stagnation
counter immediately after it is 1, not 0 — refuting "the counter is 0
immediately after the escalated generation regardless of outcome". -/
theorem C3_counterexample :
    (runGeneration 4 (runLoop initialState [stallGen, stallGen, stallGen]).1
      stallGen).mutationRate = 3 ∧
    (runGeneration 4 (runLoop initialState [stallGen, stallGen, stallGen]).1
      stallGen).state.stagnationCount = 1 := by
  decide

theorem runLoopAux_rows : ∀ (gens : List (List ScoredCand)) (g : ℕ) (st : OrchState)
    (row : BankRow), row ∈ (runLoopAux g st gens).2 →
    row.parent_id = if row.generation = 1 then "WILD_TYPE" else "PREV_GEN" := by
  intro gens
  induction gens with
  | nil => intro g st row h; simp [runLoopAux] at h
  | cons sc rest ih =>
    intro g st row h
    simp only [runLoopAux] at h
    rcases List.mem_append.mp h with h2 | h2
    · rw [runGeneration_rows_eq] at h2
      obtain ⟨hgen, hpar⟩ := genAcc_rows_mem g st sc row h2
      rw [hgen]
      exact hpar
    · exact ih (g + 1) _ row h2

/-- C6 (amended): every row recorded to the Ledger during a run carries
one of two constant sentinels as `parent_id`: `WILD_TYPE` for
generation-1 rows and `PREV_GEN` for every later generation — the
latter is a fixed string, not the id of any previously recorded
candidate. -/
theorem C6_parent_sentinel (st : OrchState) (gens : List (List ScoredCand)) (row : BankRow)
    (h : row ∈ (runLoop st gens).2) :
    row.parent_id = if row.generation = 1 then "WILD_TYPE" else "PREV_GEN" :=
  runLoopAux_rows gens 1 st row h

/-- Witness for C6 on a concrete one-generation run. -/
theorem C6_parent_sentinel_witness :
    (BankRow.mk "SYN-aa" "WILD_TYPE" "S1" (-7) (-5) 1 "NOVEL" "/vault/SYN-aa.pdb")
      ∈ (runLoop initialState [[ScoredCand.mk "aa" "S1" (-7) (-5) ""]]).2 ∧
    (BankRow.mk "SYN-aa" "WILD_TYPE" "S1" (-7) (-5) 1 "NOVEL" "/vault/SYN-aa.pdb").parent_id
      = if (BankRow.mk "SYN-aa" "WILD_TYPE" "S1" (-7) (-5) 1 "NOVEL"
            "/vault/SYN-aa.pdb").generation = 1 then "WILD_TYPE" else "PREV_GEN" := by
  refine ⟨by decide, ?_⟩
  exact C6_parent_sentinel initialState [[ScoredCand.mk "aa" "S1" (-7) (-5) ""]]
    (BankRow.mk "SYN-aa" "WILD_TYPE" "S1" (-7) (-5) 1 "NOVEL" "/vault/SYN-aa.pdb")
    (by decide)

/-- C6 counterexample: in a concrete two-generation run the second
recorded row has `parent_id = "PREV_GEN"`, which is neither the id of
any recorded candidate (all ids begin with `SYN-`) nor the founder
sentinel `WILD_TYPE` — so its `parentId` does not resolve to a
previously recorded candidate or to the synthetic root. -/
theorem C6_counterexample :
    ((runLoop initialState [[ScoredCand.mk "aa" "S1" (-7) (-5) ""],
        [ScoredCand.mk "bb" "S2" (-8) (-5) ""]]).2.map BankRow.parent_id
      = ["WILD_TYPE", "PREV_GEN"]) ∧
    "PREV_GEN" ∉ (runLoop initialState [[ScoredCand.mk "aa" "S1" (-7) (-5) ""],
        [ScoredCand.mk "bb" "S2" (-8) (-5) ""]]).2.map BankRow.id ∧
    ("PREV_GEN" : String) ≠ "WILD_TYPE" := by
  decide

/-- C9 (amended): `setInitialProtein` performs no validation of the
supplied sequence: for every input — malformed or not — the Evaluator's
`validate` is invoked exactly once on it, and the result is adopted as
the new parent with id `CUSTOM_PARENT`, a reset frontier and a cleared
stagnation counter; there is no `InvalidSequence` rejection path. -/
theorem C9_no_input_validation (st : OrchState) (sequence pdbPath : String)
    (vres : ℚ × ℚ × String) :
    (setInitialProtein st sequence pdbPath vres).calls = [(sequence, pdbPath, "initial")] ∧
    (setInitialProtein st sequence pdbPath vres).state.currentParent
      = Protein.mk (some "CUSTOM_PARENT") sequence vres.2.1 vres.1 ∧
    (setInitialProtein st sequence pdbPath vres).state.stagnationCount = 0 ∧
    (setInitialProtein st sequence pdbPath vres).state.paretoFrontier
      = [Protein.mk (some "CUSTOM_PARENT") sequence vres.2.1 vres.1] := by
  refine ⟨rfl, rfl, rfl, ?_⟩
  show (addToPareto [] (Protein.mk (some "CUSTOM_PARENT") sequence vres.2.1 vres.1)).1 = _
  rw [addToPareto_fst_of_le]
  · rfl
  · decide

/-- C9 counterexample: a malformed sequence (`"123!!"`, wrong alphabet)
supplied to `setInitialProtein` is not rejected: the Evaluator is
invoked on it and it is adopted as the new parent. -/
theorem C9_counterexample :
    (setInitialProtein initialState "123!!" "p.pdb" (0, 0, "")).calls
      = [("123!!", "p.pdb", "initial")] ∧
    (setInitialProtein initialState "123!!" "p.pdb" (0, 0, "")).state.currentParent.sequence
      = "123!!" := by
  decide

theorem jsIndex_zero (len : ℕ) : jsIndex 0 len = 0 := by
  simp [jsIndex]

theorem jsIndex_lt (r : ℚ) (len : ℕ) (h0 : 0 ≤ r) (h1 : r < 1) (hlen : 0 < len) :
    jsIndex r len < len := by
  unfold jsIndex
  have hq : (0 : ℚ) < (len : ℚ) := by exact_mod_cast hlen
  have h2 : r * len < len := by
    calc r * (len : ℚ) < 1 * len := by
          exact mul_lt_mul_of_pos_right h1 hq
    _ = len := one_mul _
  have h3 : Int.floor (r * (len : ℚ)) < (len : ℤ) := by
    rw [Int.floor_lt]
    push_cast
    exact h2
  omega

theorem aa_getD_mem (i : ℕ) : aminoAcids.getD i 'A' ∈ aminoAcids := by
  unfold List.getD
  cases hq : aminoAcids.get? i with
  | none =>
    simp only [Option.getD_none]
    decide
  | some c =>
    simp only [Option.getD_some]
    exact List.get?_mem hq

theorem mutateStep_length (chars : List Char) (d : ℚ × ℚ) (hd : ValidDraw d)
    (h : chars ≠ []) : (mutateStep chars d).length = chars.length := by
  unfold mutateStep setAt
  have hlen : 0 < chars.length := List.length_pos.mpr h
  have hidx := jsIndex_lt d.1 chars.length hd.1 hd.2.1 hlen
  rw [if_pos hidx, List.length_set]

theorem mutateStep_mem (chars : List Char) (d : ℚ × ℚ) (x : Char)
    (hx : x ∈ mutateStep chars d) : x ∈ chars ∨ x ∈ aminoAcids := by
  unfold mutateStep setAt at hx
  split at hx
  · rcases List.mem_or_eq_of_mem_set hx with h | h
    · exact Or.inl h
    · subst h
      exact Or.inr (aa_getD_mem _)
  · rcases List.mem_append.mp hx with h | h
    · exact Or.inl h
    · rw [List.mem_singleton.mp h]
      exact Or.inr (aa_getD_mem _)

theorem mutate_fold_length : ∀ (draws : List (ℚ × ℚ)) (chars : List Char),
    (∀ d ∈ draws, ValidDraw d) → chars ≠ [] →
    (draws.foldl mutateStep chars).length = chars.length := by
  intro draws
  induction draws with
  | nil => intro chars _ _; rfl
  | cons d rest ih =>
    intro chars hv hne
    have hd : ValidDraw d := hv d (List.mem_cons_self d rest)
    have hlen := mutateStep_length chars d hd hne
    have hne2 : mutateStep chars d ≠ [] := by
      intro h
      rw [h] at hlen
      exact hne (List.length_eq_zero.mp hlen.symm)
    simp only [List.foldl_cons]
    rw [ih (mutateStep chars d) (fun x hx => hv x (List.mem_cons_of_mem d hx)) hne2, hlen]

theorem mutate_fold_subset : ∀ (draws : List (ℚ × ℚ)) (chars : List Char) (x : Char),
    x ∈ draws.foldl mutateStep chars → x ∈ chars ∨ x ∈ aminoAcids := by
  intro draws
  induction draws with
  | nil => intro chars x h; exact Or.inl h
  | cons d rest ih =>
    intro chars x h
    simp only [List.foldl_cons] at h
    rcases ih (mutateStep chars d) x h with h2 | h2
    · exact mutateStep_mem chars d x h2
    · exact Or.inr h2

theorem diffCount_nil_right (a : List Char) : diffCount a [] = 0 := by
  unfold diffCount
  rw [List.zip_nil_right]
  rfl

theorem diffCount_cons (x y : Char) (as bs : List Char) :
    diffCount (x :: as) (y :: bs)
      = diffCount as bs + (if x ≠ y then 1 else 0) := by
  unfold diffCount
  rw [List.zip_cons_cons, List.countP_cons]
  simp

theorem diffCount_self (a : List Char) : diffCount a a = 0 := by
  induction a with
  | nil => rfl
  | cons x xs ih => rw [diffCount_cons, ih]; simp

theorem diffCount_set (chars : List Char) : ∀ (idx : ℕ) (c : Char),
    diffCount (chars.set idx c) chars ≤ 1 := by
  induction chars with
  | nil => intro idx c; rw [List.set_nil]; rw [diffCount_nil_right]; omega
  | cons x xs ih =>
    intro idx c
    cases idx with
    | zero =>
      rw [List.set_cons_zero, diffCount_cons, diffCount_self]
      split <;> omega
    | succ n =>
      rw [List.set_cons_succ, diffCount_cons]
      have := ih n c
      simp only [ne_eq, not_true_eq_false, if_false]
      omega

theorem diffCount_step (chars : List Char) (d : ℚ × ℚ) (hd : ValidDraw d) :
    diffCount (mutateStep chars d) chars ≤ 1 := by
  by_cases hne : chars = []
  · subst hne
    rw [diffCount_nil_right]
    omega
  · unfold mutateStep setAt
    have hlen : 0 < chars.length := List.length_pos.mpr hne
    have hidx := jsIndex_lt d.1 chars.length hd.1 hd.2.1 hlen
    rw [if_pos hidx]
    exact diffCount_set chars _ _

theorem diffCount_triangle : ∀ (a b c : List Char), a.length = b.length →
    diffCount a c ≤ diffCount a b + diffCount b c := by
  intro a
  induction a with
  | nil =>
    intro b c _
    have h0 : diffCount [] c = 0 := rfl
    rw [h0]
    omega
  | cons x as ih =>
    intro b c hlen
    cases b with
    | nil => simp at hlen
    | cons y bs =>
      cases c with
      | nil => rw [diffCount_nil_right]; omega
      | cons z cs =>
        rw [diffCount_cons, diffCount_cons, diffCount_cons]
        have hrec := ih bs cs (by simpa using hlen)
        have hpt : (if x ≠ z then 1 else 0)
            ≤ (if x ≠ y then 1 else 0) + ((if y ≠ z then 1 else 0) : ℕ) := by
          by_cases h1 : x = y
          · subst h1
            simp
          · have h4 : (if x ≠ y then (1 : ℕ) else 0) = 1 := by simp [h1]
            have h5 : (if x ≠ z then (1 : ℕ) else 0) ≤ 1 := by split <;> omega
            omega
        omega

theorem diffCount_fold : ∀ (draws : List (ℚ × ℚ)) (chars : List Char),
    (∀ d ∈ draws, ValidDraw d) →
    diffCount (draws.foldl mutateStep chars) chars ≤ draws.length := by
  intro draws
  induction draws with
  | nil =>
    intro chars _
    simp only [List.foldl_nil, List.length_nil]
    rw [diffCount_self]
  | cons d rest ih =>
    intro chars hv
    have hd : ValidDraw d := hv d (List.mem_cons_self d rest)
    have hvrest : ∀ x ∈ rest, ValidDraw x := fun x hx => hv x (List.mem_cons_of_mem d hx)
    by_cases hne : chars = []
    · subst hne
      rw [diffCount_nil_right]
      omega
    · have hmidlen := mutateStep_length chars d hd hne
      have hmidne : mutateStep chars d ≠ [] := by
        intro h
        rw [h] at hmidlen
        exact hne (List.length_eq_zero.mp hmidlen.symm)
      have hfoldlen := mutate_fold_length rest (mutateStep chars d) hvrest hmidne
      simp only [List.foldl_cons, List.length_cons]
      have htri := diffCount_triangle (rest.foldl mutateStep (mutateStep chars d))
        (mutateStep chars d) chars hfoldlen
      have h1 := ih (mutateStep chars d) hvrest
      have h2 := diffCount_step chars d hd
      omega

/-- C7: for every parent sequence and any number of substitution
attempts with draws in the range of `Math.random()`, every sequence the
Designer returns differs from the parent in at most `draws.length`
aligned positions (fewer when a position is redrawn to its original
residue). -/
theorem C7_mutation_bound (p : String) (drawss : List (List (ℚ × ℚ))) (k : ℕ)
    (hlen : ∀ ds ∈ drawss, ds.length = k)
    (hv : ∀ ds ∈ drawss, ∀ d ∈ ds, ValidDraw d) :
    ∀ s ∈ design p drawss, diffCount s.toList p.toList ≤ k := by
  intro s hs
  obtain ⟨ds, hds, rfl⟩ := List.mem_map.mp hs
  have : (mutate p ds).toList = ds.foldl mutateStep p.toList := rfl
  rw [this]
  rw [← hlen ds hds]
  exact diffCount_fold ds p.toList (hv ds hds)

/-- Witness for C7 at a concrete single-substitution mutation. -/
theorem C7_mutation_bound_witness :
    (∀ ds ∈ [[((0 : ℚ), (0 : ℚ))]], ds.length = 1) ∧
    (∀ ds ∈ [[((0 : ℚ), (0 : ℚ))]], ∀ d ∈ ds, ValidDraw d) ∧
    (∀ s ∈ design "AC" [[((0 : ℚ), (0 : ℚ))]],
      diffCount s.toList ("AC" : String).toList ≤ 1) := by
  refine ⟨by decide, by decide, ?_⟩
  exact C7_mutation_bound "AC" [[((0 : ℚ), (0 : ℚ))]] 1 (by decide) (by decide)

/-- C8 (amended): the Designer always returns exactly `count` sequences;
when the parent is nonempty each output has the parent's length; and
when the parent additionally uses only the 20 canonical residues so does
every output (freshly substituted positions always receive canonical
residues, but untouched positions keep the parent's characters, and an
empty parent grows to length 1). -/
theorem C8_design_shape (p : String) (drawss : List (List (ℚ × ℚ)))
    (hv : ∀ ds ∈ drawss, ∀ d ∈ ds, ValidDraw d) :
    (design p drawss).length = drawss.length ∧
    (p.toList ≠ [] → ∀ s ∈ design p drawss, s.toList.length = p.toList.length) ∧
    ((∀ ch ∈ p.toList, ch ∈ aminoAcids) →
      ∀ s ∈ design p drawss, ∀ ch ∈ s.toList, ch ∈ aminoAcids) := by
  refine ⟨by simp [design], ?_, ?_⟩
  · intro hne s hs
    obtain ⟨ds, hds, rfl⟩ := List.mem_map.mp hs
    exact mutate_fold_length ds p.toList (hv ds hds) hne
  · intro hsub s hs ch hch
    obtain ⟨ds, hds, rfl⟩ := List.mem_map.mp hs
    rcases mutate_fold_subset ds p.toList ch hch with h | h
    · exact hsub ch h
    · exact h

/-- Witness for C8 at a concrete canonical parent. -/
theorem C8_design_shape_witness :
    (∀ ds ∈ [[((0 : ℚ), (0 : ℚ))]], ∀ d ∈ ds, ValidDraw d) ∧
    ((design "AC" [[((0 : ℚ), (0 : ℚ))]]).length = 1 ∧
     (("AC" : String).toList ≠ [] →
       ∀ s ∈ design "AC" [[((0 : ℚ), (0 : ℚ))]],
         s.toList.length = ("AC" : String).toList.length) ∧
     ((∀ ch ∈ ("AC" : String).toList, ch ∈ aminoAcids) →
       ∀ s ∈ design "AC" [[((0 : ℚ), (0 : ℚ))]], ∀ ch ∈ s.toList, ch ∈ aminoAcids)) := by
  refine ⟨by decide, ?_⟩
  exact C8_design_shape "AC" [[((0 : ℚ), (0 : ℚ))]] (by decide)

/-- C8 counterexample: an empty parent produces an output of length 1
(JavaScript assigns past the end of the empty array), and a parent
outside the canonical alphabet keeps its non-canonical residues at
unmutated positions — so neither length preservation nor alphabet
closure holds unconditionally. -/
theorem C8_counterexample :
    design "" [[((0 : ℚ), (0 : ℚ))]] = ["A"] ∧
    ("A" : String).toList.length ≠ ("" : String).toList.length ∧
    design "BB" [[((0 : ℚ), (0 : ℚ))]] = ["AB"] ∧
    'B' ∈ ("AB" : String).toList ∧
    'B' ∉ aminoAcids := by
  have hmut1 : mutate "" [((0 : ℚ), (0 : ℚ))] = "A" := by
    unfold mutate mutateStep
    simp only [List.foldl_cons, List.foldl_nil, jsIndex_zero]
    decide
  have hmut2 : mutate "BB" [((0 : ℚ), (0 : ℚ))] = "AB" := by
    unfold mutate mutateStep
    simp only [List.foldl_cons, List.foldl_nil, jsIndex_zero]
    decide
  refine ⟨?_, by decide, ?_, by decide, by decide⟩
  · show [mutate "" [((0 : ℚ), (0 : ℚ))]] = ["A"]
    rw [hmut1]
  · show [mutate "BB" [((0 : ℚ), (0 : ℚ))]] = ["AB"]
    rw [hmut2]

theorem round2_lower (x : ℚ) (m : ℤ) (h : (m : ℚ) ≤ x * 100) :
    ((m : ℤ) : ℚ)/100 ≤ round2 x := by
  unfold round2
  have h1 : (m : ℚ) ≤ x * 100 + 1/2 := by linarith
  have h2 : m ≤ Int.floor (x * 100 + 1/2) := Int.le_floor.mpr h1
  have h3 : ((m : ℤ) : ℚ) ≤ ((Int.floor (x * 100 + 1/2) : ℤ) : ℚ) := by exact_mod_cast h2
  exact (div_le_div_right (by norm_num : (0 : ℚ) < 100)).mpr h3

theorem round2_upper (x : ℚ) (m : ℤ) (h : x * 100 + 1/2 < (m : ℚ) + 1) :
    round2 x ≤ ((m : ℤ) : ℚ)/100 := by
  unfold round2
  have h2 : Int.floor (x * 100 + 1/2) < m + 1 := by
    rw [Int.floor_lt]
    push_cast
    linarith
  have h3 : Int.floor (x * 100 + 1/2) ≤ m := by omega
  have h4 : ((Int.floor (x * 100 + 1/2) : ℤ) : ℚ) ≤ ((m : ℤ) : ℚ) := by exact_mod_cast h3
  exact (div_le_div_right (by norm_num : (0 : ℚ) < 100)).mpr h4

theorem simValidate_fst_bounds (rFactor rS rA : ℚ) (hS0 : 0 ≤ rS) (hS1 : rS < 1) :
    -(17/2) ≤ (simValidate rFactor rS rA).1 ∧ (simValidate rFactor rS rA).1 ≤ -3 := by
  have h1 : (simValidate rFactor rS rA).1
      = round2 (-5 + (rS * 4 - 2)
          - (if decide ((9 : ℚ)/10 < rFactor) = true then (3 : ℚ)/2 else 0)) := rfl
  rw [h1]
  set b : ℚ := if decide ((9 : ℚ)/10 < rFactor) = true then (3 : ℚ)/2 else 0 with hbdef
  have hb0 : 0 ≤ b := by rw [hbdef]; split <;> norm_num
  have hb1 : b ≤ 3/2 := by rw [hbdef]; split <;> norm_num
  constructor
  · have hl := round2_lower (-5 + (rS * 4 - 2) - b) (-850) (by push_cast; linarith)
    have he : (((-850 : ℤ) : ℚ))/100 = -(17/2) := by norm_num
    linarith
  · have hu := round2_upper (-5 + (rS * 4 - 2) - b) (-300) (by push_cast; linarith)
    have he : (((-300 : ℤ) : ℚ))/100 = -3 := by norm_num
    linarith

theorem simValidate_snd_bounds (rFactor rS rA : ℚ) (hA0 : 0 ≤ rA) (hA1 : rA < 1) :
    -(19/2) ≤ (simValidate rFactor rS rA).2 ∧ (simValidate rFactor rS rA).2 ≤ -4 := by
  have h1 : (simValidate rFactor rS rA).2
      = round2 (-6 + (rA * 4 - 2)
          - (if decide ((9 : ℚ)/10 < rFactor) = true then (3 : ℚ)/2 else 0)) := rfl
  rw [h1]
  set b : ℚ := if decide ((9 : ℚ)/10 < rFactor) = true then (3 : ℚ)/2 else 0 with hbdef
  have hb0 : 0 ≤ b := by rw [hbdef]; split <;> norm_num
  have hb1 : b ≤ 3/2 := by rw [hbdef]; split <;> norm_num
  constructor
  · have hl := round2_lower (-6 + (rA * 4 - 2) - b) (-950) (by push_cast; linarith)
    have he : (((-950 : ℤ) : ℚ))/100 = -(19/2) := by norm_num
    linarith
  · have hu := round2_upper (-6 + (rA * 4 - 2) - b) (-400) (by push_cast; linarith)
    have he : (((-400 : ℤ) : ℚ))/100 = -4 := by norm_num
    linarith

/-- C10: for all draws of the heuristic Validator with the noise draws
in `[0, 1)`, the rounded stability lies in [-8.5, -3.0] and the rounded
affinity in [-9.5, -4.0]; both are strictly negative, so the affinity
never equals the zero sentinel and the Controller's zero-affinity
exclusion in the generation-best test is vacuous for simulated scores. -/
theorem C10_sim_validator_ranges (rFactor rS rA : ℚ)
    (hS0 : 0 ≤ rS) (hS1 : rS < 1) (hA0 : 0 ≤ rA) (hA1 : rA < 1) :
    (-(17/2) ≤ (simValidate rFactor rS rA).1 ∧ (simValidate rFactor rS rA).1 ≤ -3) ∧
    (-(19/2) ≤ (simValidate rFactor rS rA).2 ∧ (simValidate rFactor rS rA).2 ≤ -4) ∧
    (simValidate rFactor rS rA).1 < 0 ∧
    (simValidate rFactor rS rA).2 < 0 ∧
    (simValidate rFactor rS rA).2 ≠ 0 ∧
    (∀ (acc : Option Protein × ℚ) (c : Protein),
      c.affinity = (simValidate rFactor rS rA).2 →
      selStep acc c
        = if c.affinity < acc.2 ∧ c.stability < -4 then (some c, c.affinity) else acc) := by
  have hst := simValidate_fst_bounds rFactor rS rA hS0 hS1
  have haf := simValidate_snd_bounds rFactor rS rA hA0 hA1
  have haf0 : (simValidate rFactor rS rA).2 < 0 := by linarith [haf.2]
  refine ⟨hst, haf, by linarith [hst.2], haf0, ne_of_lt haf0, ?_⟩
  intro acc c hc
  have hne : c.affinity ≠ 0 := by
    rw [hc]
    exact ne_of_lt haf0
  unfold selStep
  by_cases hcond : c.affinity < acc.2 ∧ c.stability < -4
  · rw [if_pos ⟨hcond.1, hcond.2, hne⟩, if_pos hcond]
  · rw [if_neg (by tauto), if_neg hcond]

/-- Witness for C10 at the all-zero draws. -/
theorem C10_sim_validator_ranges_witness :
    ((0 : ℚ) ≤ 0 ∧ (0 : ℚ) < 1) ∧
    ((-(17/2) ≤ (simValidate 0 0 0).1 ∧ (simValidate 0 0 0).1 ≤ -3) ∧
     (-(19/2) ≤ (simValidate 0 0 0).2 ∧ (simValidate 0 0 0).2 ≤ -4) ∧
     (simValidate 0 0 0).1 < 0 ∧
     (simValidate 0 0 0).2 < 0 ∧
     (simValidate 0 0 0).2 ≠ 0 ∧
     (∀ (acc : Option Protein × ℚ) (c : Protein),
       c.affinity = (simValidate 0 0 0).2 →
       selStep acc c
         = if c.affinity < acc.2 ∧ c.stability < -4 then (some c, c.affinity) else acc)) := by
  refine ⟨⟨by decide, by decide⟩, ?_⟩
  exact C10_sim_validator_ranges 0 0 0 (by decide) (by decide) (by decide) (by decide)

theorem validateRealBody_ok_path (env : ToolEnv) (id : String) (r : RValidationResult)
    (h : validateRealBody env id = Except.ok r) :
    r.pdbPath = workDirOf id ++ "/mutant.pdb" := by
  simp only [validateRealBody] at h
  repeat' split at h
  all_goals
    first
    | exact Except.noConfusion h
    | (injection h with h2; rw [← h2])

/-- C2 (amended): the tool-backed `validate` is a total function —
every call returns a result, never an exception.  When any step throws
(failed mkdir, missing binaries or failed tool exec, failed readdir,
missing FoldX output file, unreadable FoldX file) the outer catch
returns exactly the penalty result (stability 100.0, affinity 0.0,
empty structure path).  But a missing or pattern-unmatched Vina output
file is absorbed by an inner handler: the call then returns affinity
0.0 together with whatever stability was parsed and a non-empty
structure path — not the penalty result. -/
theorem C2_validate_total (env : ToolEnv) (sequence parentPdb id : String) :
    (∀ e, validateRealBody env id = Except.error e →
      validateReal env sequence parentPdb id = penaltyResult) ∧
    (∀ r, validateRealBody env id = Except.ok r →
      validateReal env sequence parentPdb id = r ∧
      r.pdbPath = workDirOf id ++ "/mutant.pdb") := by
  constructor
  · intro e he
    unfold validateReal
    rw [he]
  · intro r hr
    refine ⟨?_, validateRealBody_ok_path env id r hr⟩
    unfold validateReal
    rw [hr]

/-- Witness for C2: with the FoldX binary unavailable (exec throws) the
call returns exactly the penalty result. -/
theorem C2_validate_total_witness :
    validateRealBody (ToolEnv.mk true false true (some []) (fun _ => none)) "test"
      = Except.error "foldx exec failed" ∧
    validateReal (ToolEnv.mk true false true (some []) (fun _ => none))
      "SEQ" "parent.pdb" "test" = penaltyResult := by
  refine ⟨rfl, ?_⟩
  exact (C2_validate_total (ToolEnv.mk true false true (some []) (fun _ => none))
    "SEQ" "parent.pdb" "test").1 "foldx exec failed" rfl

/-- C2 counterexample: both tools run, the FoldX report parses to
stability -7, but the Vina output file is missing — a failing step —
and the call returns (stability -7, affinity 0, non-empty path), not
the penalty result (stability 100, affinity 0, empty path). -/
theorem C2_counterexample :
    validateReal (ToolEnv.mk true true true (some ["Raw_x.fx"])
        (fun f => if f = "Raw_x.fx" then some "H\nA\t-7" else none))
        "SEQ" "parent.pdb" "test"
      = RValidationResult.mk (some (-7)) (some 0) "workspace/test/mutant.pdb" ∧
    (ToolEnv.mk true true true (some ["Raw_x.fx"])
        (fun f => if f = "Raw_x.fx" then some "H\nA\t-7" else none)).readFile
        "mutant.pdbqt" = none ∧
    RValidationResult.mk (some (-7)) (some 0) "workspace/test/mutant.pdb"
      ≠ penaltyResult := by
  refine ⟨by decide, by decide, by decide⟩

/-- C4 (amended): `getBestProtein` returns `none` exactly on an empty
table and otherwise a row of minimal binding affinity; the query has no
secondary sort key, so the choice among tied rows is unspecified rather
than most-recent-wins; on the spec's example affinities
[-5.0, -9.2, -3.1] (no ties) every admissible result is the -9.2 row. -/
theorem C4_best_lowest (bank : List BankRow) (res : Option BankRow)
    (h : GetBestResult bank res) :
    (res = none ↔ bank = []) ∧
    (∀ r, res = some r → MinimalAffinity bank r) ∧
    (∀ res2, GetBestResult bankExample res2 → res2 = some (rowWithAff "B" (-9.2))) := by
  refine ⟨⟨?_, ?_⟩, ?_, ?_⟩
  · intro hres
    rcases h with ⟨hb, _⟩ | ⟨r, hr, _⟩
    · exact hb
    · rw [hres] at hr
      cases hr
  · intro hb
    rcases h with ⟨_, hres⟩ | ⟨r, hr, hmin⟩
    · exact hres
    · subst hb
      exact absurd hmin.1 (List.not_mem_nil r)
  · intro r hr
    rcases h with ⟨_, hres⟩ | ⟨r2, hr2, hmin⟩
    · rw [hres] at hr
      cases hr
    · rw [hr] at hr2
      injection hr2 with h2
      rw [h2]
      exact hmin
  · intro res2 h2
    rcases h2 with ⟨hb, _⟩ | ⟨r, hr, hmin⟩
    · exact absurd hb (by simp [bankExample])
    · rw [hr]
      have hmem := hmin.1
      have hall := hmin.2
      simp only [bankExample, List.mem_cons, List.not_mem_nil, or_false] at hmem
      rcases hmem with h3 | h3 | h3
      · exfalso
        have hB := hall (rowWithAff "B" (-9.2)) (by simp [bankExample])
        rw [h3] at hB
        simp only [rowWithAff] at hB
        norm_num at hB
      · rw [h3]
      · exfalso
        have hB := hall (rowWithAff "B" (-9.2)) (by simp [bankExample])
        rw [h3] at hB
        simp only [rowWithAff] at hB
        norm_num at hB

/-- Witness for C4 on a one-row table. -/
theorem C4_best_lowest_witness :
    GetBestResult [rowWithAff "A" (-7)] (some (rowWithAff "A" (-7))) ∧
    ((some (rowWithAff "A" (-7)) = none ↔ ([rowWithAff "A" (-7)] : List BankRow) = []) ∧
     (∀ r, some (rowWithAff "A" (-7)) = some r →
        MinimalAffinity [rowWithAff "A" (-7)] r) ∧
     (∀ res2, GetBestResult bankExample res2 → res2 = some (rowWithAff "B" (-9.2)))) := by
  have hg : GetBestResult [rowWithAff "A" (-7)] (some (rowWithAff "A" (-7))) :=
    Or.inr ⟨rowWithAff "A" (-7), rfl, by decide⟩
  exact ⟨hg, C4_best_lowest [rowWithAff "A" (-7)] (some (rowWithAff "A" (-7))) hg⟩

/-- C4 counterexample: on a table with two rows tied at the minimal
affinity, returning the earlier-recorded row is an admissible result of
`ORDER BY binding_affinity ASC LIMIT 1`, yet the spec's
most-recent-wins tie-break demands the later row — the claimed
tie-break is not guaranteed by the query. -/
theorem C4_counterexample :
    GetBestResult [rowWithAff "A" (-5), rowWithAff "B" (-5)] (some (rowWithAff "A" (-5))) ∧
    bestMostRecent [rowWithAff "A" (-5), rowWithAff "B" (-5)]
      = some (rowWithAff "B" (-5)) ∧
    rowWithAff "A" (-5) ≠ rowWithAff "B" (-5) := by
  refine ⟨Or.inr ⟨rowWithAff "A" (-5), rfl, by decide⟩, by decide, by decide⟩

end Refinery
